import Mathlib

/-!
Verification of the epoch-to-calendar converter `gmtime` from
`src/src/libc/gmtime.c`.

The C function converts a signed seconds-since-epoch count (`time_t`) into a
broken-down calendar time (`struct tm`).  The embedding below translates the
function loop by loop:

* `yearLoopF` is the forward year walk
  (`while (t >= secs_this_year) { t -= secs_this_year; tm_year++; }`);
* `yearLoopB` is the backward year walk for pre-epoch instants
  (`while (t < 0) t += istmleap(--tm_year) ? SECS_PER_LEAP : SECS_PER_YEAR;`);
* `monthLoop` walks the month-length table;
* `dayLoop`, `hourLoop`, `minLoop` are the three unit-stepping loops.

`time_t` is modelled as an unbounded signed integer (the spec describes the
input as a signed integer count with no domain restriction beyond host range;
the repository's `time.h` is not among the sources).  C's truncating signed
division and remainder are `Int.tdiv` and `Int.tmod`.  The static month-length
table `dpm` is threaded through `gmtimeAux` explicitly so the in-place
February mutation and its restoration are visible in the result.
-/

namespace Gmtime

/-- Second counts from the C `#define`s (`86400UL`, `3600UL`, `60UL`). -/
def SECS_PER_DAY : Int := 86400

/-- Seconds per hour. -/
def SECS_PER_HOUR : Int := 3600

/-- Seconds per minute. -/
def SECS_PER_MIN : Int := 60

/-- Seconds in a 365-day year (`365UL * SECS_PER_DAY`). -/
def SECS_PER_YEAR : Int := 365 * SECS_PER_DAY

/-- Seconds in a 366-day leap year (`SECS_PER_YEAR + SECS_PER_DAY`). -/
def SECS_PER_LEAP : Int := SECS_PER_YEAR + SECS_PER_DAY

/-- Modelled from the spec: the external predicate `__isleap` is declared
`extern bool __isleap(int year);` and its definition is not among the sources.
The spec fixes its contract: a leap-year test under the Gregorian rule,
"divisible by 4, except centuries not divisible by 400".  Divisibility tests
are sign-insensitive, so the Euclidean remainder is used. -/
def isleapGregorian (year : Int) : Bool :=
  year % 4 == 0 && (year % 100 != 0 || year % 400 == 0)

/-- Translation of `static bool istmleap(int year) { year += 1900; return __isleap(year); }`. -/
def istmleap (year : Int) : Bool := isleapGregorian (year + 1900)

/-- Length in seconds of the year `year + 1900`, the selection
`istmleap(tm_year) ? SECS_PER_LEAP : SECS_PER_YEAR` made by both year loops. -/
def yearSecs (year : Int) : Int := if istmleap year then SECS_PER_LEAP else SECS_PER_YEAR

/-- Initial state of the static table `static uint8_t dpm[] = {31,28,...}`. -/
def dpm0 : List Int := [31, 28, 31, 30, 31, 30, 31, 31, 30, 31, 30, 31]

/-- Translation of `struct tm`, fields in declaration order of use. -/
structure Tm where
  tm_sec : Int
  tm_min : Int
  tm_hour : Int
  tm_mday : Int
  tm_mon : Int
  tm_year : Int
  tm_wday : Int
  tm_yday : Int
  tm_isdst : Int
deriving DecidableEq

/-- Forward year walk:
`while (t >= (secs_this_year = istmleap(tm_year) ? SECS_PER_LEAP : SECS_PER_YEAR)) { t -= secs_this_year; tm_year++; }`. -/
def yearLoopF (t year : Int) : Int × Int :=
  if h : yearSecs year ≤ t then yearLoopF (t - yearSecs year) (year + 1)
  else (t, year)
termination_by t.toNat
decreasing_by
  have hp : 0 < yearSecs year := by
    unfold yearSecs SECS_PER_LEAP SECS_PER_YEAR SECS_PER_DAY
    split <;> norm_num
  omega

/-- Backward year walk:
`while (t < 0) { t += istmleap(--tm_year) ? SECS_PER_LEAP : SECS_PER_YEAR; }`
(the pre-decrement makes the loop add the length of the newly decremented year). -/
def yearLoopB (t year : Int) : Int × Int :=
  if h : t < 0 then yearLoopB (t + yearSecs (year - 1)) (year - 1)
  else (t, year)
termination_by (-t).toNat
decreasing_by
  have hp : 0 < yearSecs (year - 1) := by
    unfold yearSecs SECS_PER_LEAP SECS_PER_YEAR SECS_PER_DAY
    split <;> norm_num
  omega

/-- Month walk:
`while (t >= dpm[tm_mon] * SECS_PER_DAY) t -= dpm[tm_mon++] * SECS_PER_DAY;`.
The index-in-bounds guard models the extent of the 12-entry table; C indexing
past the table is undefined behaviour and is proved unreachable below. -/
def monthLoop (dpm : List Int) (t : Int) (mon : Nat) : Int × Nat :=
  if h : mon < dpm.length then
    if dpm.get ⟨mon, h⟩ * SECS_PER_DAY ≤ t then
      monthLoop dpm (t - dpm.get ⟨mon, h⟩ * SECS_PER_DAY) (mon + 1)
    else (t, mon)
  else (t, mon)
termination_by dpm.length - mon
decreasing_by omega

/-- Day walk: `while (t >= SECS_PER_DAY) { t -= SECS_PER_DAY; tm_mday++; }`. -/
def dayLoop (t mday : Int) : Int × Int :=
  if h : SECS_PER_DAY ≤ t then dayLoop (t - SECS_PER_DAY) (mday + 1)
  else (t, mday)
termination_by t.toNat
decreasing_by
  unfold SECS_PER_DAY at h ⊢
  omega

/-- Hour walk: `while (t >= SECS_PER_HOUR) { t -= SECS_PER_HOUR; tm_hour++; }`. -/
def hourLoop (t hour : Int) : Int × Int :=
  if h : SECS_PER_HOUR ≤ t then hourLoop (t - SECS_PER_HOUR) (hour + 1)
  else (t, hour)
termination_by t.toNat
decreasing_by
  unfold SECS_PER_HOUR at h ⊢
  omega

/-- Minute walk: `while (t >= SECS_PER_MIN) { t -= SECS_PER_MIN; tm_min++; }`. -/
def minLoop (t minute : Int) : Int × Int :=
  if h : SECS_PER_MIN ≤ t then minLoop (t - SECS_PER_MIN) (minute + 1)
  else (t, minute)
termination_by t.toNat
decreasing_by
  unfold SECS_PER_MIN at h ⊢
  omega

/-- Translation of the body of `struct tm *gmtime(const time_t *tp)`.  The
static table is passed in and the table state at function return is the second
component of the result.  The weekday is computed from the raw input with C's
truncating signed division and remainder (`(t / SECS_PER_DAY + 4) % 7`), the
year loops resolve the year, `tm_yday` is the remaining whole days, February's
table entry is set to 29 exactly when the resolved year is a leap year and is
unconditionally reset to 28 after the month walk (`dpm[1] = 28;`), and the
remaining loops resolve day of month, hour and minute, leaving the seconds. -/
def gmtimeAux (dpm : List Int) (t0 : Int) : Tm × List Int :=
  let wday := Int.tmod (Int.tdiv t0 SECS_PER_DAY + 4) 7
  let p1 := yearLoopF t0 70
  let p2 := yearLoopB p1.1 p1.2
  let yday := Int.tdiv p2.1 SECS_PER_DAY
  let dpmA := if istmleap p2.2 then dpm.set 1 29 else dpm
  let p3 := monthLoop dpmA p2.1 0
  let dpmB := dpmA.set 1 28
  let p4 := dayLoop p3.1 1
  let p5 := hourLoop p4.1 0
  let p6 := minLoop p5.1 0
  (⟨p6.1, p6.2, p5.2, p4.2, Int.ofNat p3.2, p2.2, wday, yday, -1⟩, dpmB)

/-- Broken-down time produced by `gmtime` starting from the table's static
initial state. -/
def gmtime (t : Int) : Tm := (gmtimeAux dpm0 t).1

/-- Result as the C caller sees it: the function body has a single
`return &tm2;` and no null-returning path, so every input yields `some`. -/
def gmtimeC (t : Int) : Option Tm := some (gmtime t)

/-- Sum of the lengths in seconds of the `n` consecutive years starting at
year offset `y` (offsets from 1900, as in `tm_year`). -/
def spanN (y : Int) : Nat → Int
  | 0 => 0
  | n + 1 => spanN y n + yearSecs (y + n)

/-- Signed count of seconds from 1970-01-01 to the start of year offset `y`:
the sum of the lengths of all whole years between 1970 and `y + 1900`,
negated when `y` lies before 1970. -/
def yearSpanSecs (y : Int) : Int :=
  if 70 ≤ y then spanN 70 (y - 70).toNat else -(spanN y (70 - y).toNat)

/-- Month-length table in effect for year offset `y`: February is 29 in leap
years, 28 otherwise. -/
def dpmFor (y : Int) : List Int := if istmleap y then dpm0.set 1 29 else dpm0

/-- Reconstruction of a seconds-since-epoch count from a broken-down time:
whole years since 1970 (signed), whole months before `tm_mon` in that year,
whole days before `tm_mday`, then hours, minutes and seconds. -/
def recompose (a : Tm) : Int :=
  yearSpanSecs a.tm_year
    + ((dpmFor a.tm_year).take a.tm_mon.toNat).sum * SECS_PER_DAY
    + (a.tm_mday - 1) * SECS_PER_DAY
    + a.tm_hour * SECS_PER_HOUR
    + a.tm_min * SECS_PER_MIN
    + a.tm_sec

/-- Range invariants of a broken-down time, as in the spec's field table. -/
def validTm (a : Tm) : Prop :=
  0 ≤ a.tm_sec ∧ a.tm_sec < 60 ∧
  0 ≤ a.tm_min ∧ a.tm_min < 60 ∧
  0 ≤ a.tm_hour ∧ a.tm_hour < 24 ∧
  0 ≤ a.tm_mon ∧ a.tm_mon < 12 ∧
  1 ≤ a.tm_mday ∧ a.tm_mday ≤ (dpmFor a.tm_year).getD a.tm_mon.toNat 0

/-- Lexicographic (non-strict) order on the six calendar fields, compared in
the order year, month, day of month, hour, minute, second. -/
def lexLe6 (a b : Tm) : Prop :=
  a.tm_year < b.tm_year ∨
  (a.tm_year = b.tm_year ∧ (a.tm_mon < b.tm_mon ∨
   (a.tm_mon = b.tm_mon ∧ (a.tm_mday < b.tm_mday ∨
    (a.tm_mday = b.tm_mday ∧ (a.tm_hour < b.tm_hour ∨
     (a.tm_hour = b.tm_hour ∧ (a.tm_min < b.tm_min ∨
      (a.tm_min = b.tm_min ∧ a.tm_sec ≤ b.tm_sec)))))))))

/-- Lexicographic strict order on the six calendar fields. -/
def lexLt6 (a b : Tm) : Prop :=
  a.tm_year < b.tm_year ∨
  (a.tm_year = b.tm_year ∧ (a.tm_mon < b.tm_mon ∨
   (a.tm_mon = b.tm_mon ∧ (a.tm_mday < b.tm_mday ∨
    (a.tm_mday = b.tm_mday ∧ (a.tm_hour < b.tm_hour ∨
     (a.tm_hour = b.tm_hour ∧ (a.tm_min < b.tm_min ∨
      (a.tm_min = b.tm_min ∧ a.tm_sec < b.tm_sec)))))))))

lemma yearSecs_pos (y : Int) : 0 < yearSecs y := by
  unfold yearSecs SECS_PER_LEAP SECS_PER_YEAR SECS_PER_DAY
  split <;> norm_num

lemma yearSecs_bounds (y : Int) : 31536000 ≤ yearSecs y ∧ yearSecs y ≤ 31622400 := by
  unfold yearSecs SECS_PER_LEAP SECS_PER_YEAR SECS_PER_DAY
  split <;> norm_num

lemma spanN_succ (y : Int) (n : Nat) :
    spanN y (n + 1) = spanN y n + yearSecs (y + n) := rfl

lemma spanN_cons (y : Int) : ∀ n : Nat, spanN y (n + 1) = yearSecs y + spanN (y + 1) n := by
  intro n
  induction n with
  | zero => simp [spanN]
  | succ n ih =>
      rw [spanN_succ y (n + 1), ih, spanN_succ (y + 1) n]
      have harg : y + ((n : Int) + 1) = y + 1 + n := by ring
      push_cast
      rw [harg]
      ring

lemma yearSpanSecs_succ (y : Int) : yearSpanSecs (y + 1) = yearSpanSecs y + yearSecs y := by
  unfold yearSpanSecs
  rcases le_or_lt 70 y with hy | hy
  · rw [if_pos (by omega), if_pos hy]
    have hn : (y + 1 - 70).toNat = (y - 70).toNat + 1 := by omega
    rw [hn, spanN_succ]
    have harg : (70 : Int) + ((y - 70).toNat : Int) = y := by omega
    rw [harg]
  · rcases eq_or_lt_of_le (by omega : y + 1 ≤ 70) with he | hlt
    · rw [if_pos (le_of_eq he.symm), if_neg (by omega)]
      have h1 : (y + 1 - 70).toNat = 0 := by omega
      have h2 : (70 - y).toNat = 1 := by omega
      rw [h1, h2, spanN_succ]
      have harg : y + ((0 : Nat) : Int) = y := by norm_num
      rw [harg]
      simp [spanN]
    · rw [if_neg (by omega), if_neg (by omega)]
      have h1 : (70 - y).toNat = (70 - (y + 1)).toNat + 1 := by omega
      rw [h1, spanN_cons y ((70 - (y + 1)).toNat)]
      ring

lemma yearSpanSecs_step_le {y1 y2 : Int} (h : y1 < y2) :
    yearSpanSecs y1 + yearSecs y1 ≤ yearSpanSecs y2 := by
  have hk : ∀ k : Nat, yearSpanSecs y1 + yearSecs y1 ≤ yearSpanSecs (y1 + 1 + k) := by
    intro k
    induction k with
    | zero =>
        simp only [Nat.cast_zero, add_zero]
        rw [yearSpanSecs_succ]
    | succ k ih =>
        have harg : y1 + 1 + ((k + 1 : Nat) : Int) = (y1 + 1 + ((k : Nat) : Int)) + 1 := by
          push_cast; ring
        rw [harg, yearSpanSecs_succ]
        have := yearSecs_pos (y1 + 1 + ((k : Nat) : Int))
        omega
  have h2 : y2 = y1 + 1 + ((y2 - y1 - 1).toNat : Int) := by omega
  rw [h2]
  exact hk _

lemma yearLoopF_spec (t y : Int) :
    ∃ n : Nat, yearLoopF t y = (t - spanN y n, y + n)
      ∧ t - spanN y n < yearSecs (y + n)
      ∧ (n = 0 ∨ 0 ≤ t - spanN y n) := by
  induction t, y using yearLoopF.induct with
  | case1 t y h ih =>
      obtain ⟨n, heq, hlt, hnn⟩ := ih
      have hkey : spanN y (n + 1) = yearSecs y + spanN (y + 1) n := spanN_cons y n
      have harg : (y + 1) + (n : Int) = y + ((n + 1 : Nat) : Int) := by push_cast; ring
      refine ⟨n + 1, ?_, ?_, ?_⟩
      · unfold yearLoopF
        rw [dif_pos h, heq]
        simp only [Prod.mk.injEq]
        exact ⟨by rw [hkey]; ring, harg⟩
      · have hys : yearSecs (y + ((n + 1 : Nat) : Int)) = yearSecs ((y + 1) + (n : Int)) := by
          rw [← harg]
        rw [hkey, hys]
        omega
      · right
        rcases hnn with h0 | hge
        · subst h0
          have h1 : spanN y 1 = yearSecs y := by
            rw [spanN_succ]
            simp [spanN]
          rw [h1]
          omega
        · rw [hkey]
          omega
  | case2 t y h =>
      refine ⟨0, ?_, ?_, Or.inl rfl⟩
      · unfold yearLoopF
        rw [dif_neg h]
        simp [spanN]
      · simp only [spanN, Nat.cast_zero, add_zero, sub_zero]
        omega

lemma yearLoopB_eq_of_nonneg {t y : Int} (h : 0 ≤ t) : yearLoopB t y = (t, y) := by
  unfold yearLoopB
  rw [dif_neg (by omega)]

lemma yearLoopB_spec (t y : Int) :
    (0 ≤ t ∧ yearLoopB t y = (t, y)) ∨
    (∃ n : Nat, 1 ≤ n ∧ yearLoopB t y = (t + spanN (y - n) n, y - n)
       ∧ 0 ≤ t + spanN (y - n) n ∧ t + spanN (y - n) n < yearSecs (y - n)) := by
  induction t, y using yearLoopB.induct with
  | case1 t y h ih =>
      right
      rcases ih with ⟨hnn, heq⟩ | ⟨n, h1, heq, h2, h3⟩
      · have hspan : spanN (y - 1) 1 = yearSecs (y - 1) := by
          rw [spanN_succ]
          simp [spanN]
        refine ⟨1, le_refl 1, ?_, ?_, ?_⟩
        · unfold yearLoopB
          rw [dif_pos h, heq]
          simp only [Nat.cast_one]
          rw [hspan]
        · simp only [Nat.cast_one]
          rw [hspan]
          omega
        · simp only [Nat.cast_one]
          rw [hspan]
          omega
      · have harg : y - 1 - (n : Int) = y - ((n + 1 : Nat) : Int) := by push_cast; ring
        have hkey : spanN (y - ((n + 1 : Nat) : Int)) (n + 1)
            = spanN (y - 1 - (n : Int)) n + yearSecs (y - 1) := by
          rw [spanN_succ, ← harg]
          have harg2 : y - 1 - (n : Int) + (n : Int) = y - 1 := by ring
          rw [harg2]
        have hys : yearSecs (y - ((n + 1 : Nat) : Int)) = yearSecs (y - 1 - (n : Int)) := by
          rw [harg]
        refine ⟨n + 1, by omega, ?_, ?_, ?_⟩
        · unfold yearLoopB
          rw [dif_pos h, heq]
          simp only [Prod.mk.injEq]
          exact ⟨by rw [hkey]; ring, harg⟩
        · rw [hkey]
          omega
        · rw [hkey, hys]
          omega
  | case2 t y h =>
      exact Or.inl ⟨by omega, by unfold yearLoopB; rw [dif_neg h]⟩

lemma yearPhase (E : Int) :
    ∃ t2 y2 : Int, yearLoopB (yearLoopF E 70).1 (yearLoopF E 70).2 = (t2, y2)
      ∧ t2 = E - yearSpanSecs y2 ∧ 0 ≤ t2 ∧ t2 < yearSecs y2 := by
  obtain ⟨n, heqF, hltF, hnnF⟩ := yearLoopF_spec E 70
  rw [heqF]
  by_cases hnn : 0 ≤ E - spanN 70 n
  · refine ⟨E - spanN 70 n, 70 + n, ?_, ?_, hnn, ?_⟩
    · exact yearLoopB_eq_of_nonneg hnn
    · have hys : yearSpanSecs (70 + (n : Int)) = spanN 70 n := by
        unfold yearSpanSecs
        rw [if_pos (by omega)]
        congr 1
        omega
      rw [hys]
    · exact hltF
  · have hn0 : n = 0 := by
      rcases hnnF with h0 | hge
      · exact h0
      · omega
    subst hn0
    simp only [spanN, Nat.cast_zero, sub_zero, add_zero] at heqF hltF hnn ⊢
    rcases yearLoopB_spec E 70 with ⟨h0, _⟩ | ⟨m, hm1, heqB, h2, h3⟩
    · omega
    · refine ⟨E + spanN (70 - m) m, 70 - m, heqB, ?_, h2, h3⟩
      have hys : yearSpanSecs (70 - (m : Int)) = -(spanN (70 - (m : Int)) m) := by
        unfold yearSpanSecs
        rw [if_neg (by omega)]
        congr 2
        omega
      rw [hys]
      ring

lemma getD_of_lt (L : List Int) (k : Nat) (h : k < L.length) : L.getD k 0 = L.get ⟨k, h⟩ := by
  simp [List.getD_eq_getElem?_getD, List.getElem?_eq_getElem h, List.get_eq_getElem]

lemma sum_take_le (L : List Int) (h : ∀ x ∈ L, 0 ≤ x) (a : Nat) : (L.take a).sum ≤ L.sum := by
  conv_rhs => rw [← List.take_append_drop a L]
  rw [List.sum_append]
  have hd : 0 ≤ (L.drop a).sum := List.sum_nonneg fun x hx => h x (List.drop_subset _ _ hx)
  omega

lemma sum_take_mono (L : List Int) (h : ∀ x ∈ L, 0 ≤ x) {a b : Nat} (hab : a ≤ b) :
    (L.take a).sum ≤ (L.take b).sum := by
  have h1 : L.take a = (L.take b).take a := by
    rw [List.take_take, Nat.min_eq_left hab]
  rw [h1]
  exact sum_take_le (L.take b) (fun x hx => h x (List.take_subset _ _ hx)) a

lemma dpmFor_pos (y : Int) : ∀ x ∈ dpmFor y, 0 < x := by
  unfold dpmFor
  cases istmleap y <;> decide

lemma dpmFor_length (y : Int) : (dpmFor y).length = 12 := by
  unfold dpmFor
  cases istmleap y <;> decide

lemma dpmFor_sum (y : Int) : (dpmFor y).sum * SECS_PER_DAY = yearSecs y := by
  unfold dpmFor yearSecs
  cases istmleap y <;> decide

lemma dpmFor_getD_le (y : Int) (k : Nat) (hk : k < 12) : (dpmFor y).getD k 0 ≤ 31 := by
  unfold dpmFor
  cases istmleap y <;> interval_cases k <;> decide

lemma dpmFor_take_mono (y : Int) (j k : Nat) (hjk : j < k) (hk : k ≤ 12) :
    ((dpmFor y).take j).sum + (dpmFor y).getD j 0 ≤ ((dpmFor y).take k).sum := by
  have hlen : (dpmFor y).length = 12 := dpmFor_length y
  have hj : j < (dpmFor y).length := by omega
  have hnn : ∀ x ∈ dpmFor y, 0 ≤ x := fun x hx => le_of_lt (dpmFor_pos y x hx)
  rw [getD_of_lt _ _ hj, List.get_eq_getElem, ← List.sum_take_succ _ _ hj]
  exact sum_take_mono _ hnn (by omega)

lemma dpmFor_take_nonneg (y : Int) (k : Nat) : 0 ≤ ((dpmFor y).take k).sum :=
  List.sum_nonneg fun x hx =>
    le_of_lt (dpmFor_pos y x (List.take_subset _ _ hx))

lemma dpmFor_take_full (y : Int) : ((dpmFor y).take 12).sum = (dpmFor y).sum := by
  have hlen : (dpmFor y).length = 12 := dpmFor_length y
  rw [← hlen, List.take_length]

lemma monthLoop_spec : ∀ (L : List Int) (t : Int) (mon : Nat),
    (∀ x ∈ L, 0 < x) → 0 ≤ t → t < ((L.drop mon).sum) * SECS_PER_DAY →
    ∃ m' : Nat, monthLoop L t mon
        = (t - ((L.take m').sum - (L.take mon).sum) * SECS_PER_DAY, m')
      ∧ mon ≤ m' ∧ m' < L.length
      ∧ 0 ≤ t - ((L.take m').sum - (L.take mon).sum) * SECS_PER_DAY
      ∧ t - ((L.take m').sum - (L.take mon).sum) * SECS_PER_DAY
          < L.getD m' 0 * SECS_PER_DAY := by
  intro L t0 mon0
  refine monthLoop.induct L
    (fun t mon => (∀ x ∈ L, 0 < x) → 0 ≤ t → t < ((L.drop mon).sum) * SECS_PER_DAY →
      ∃ m' : Nat, monthLoop L t mon
          = (t - ((L.take m').sum - (L.take mon).sum) * SECS_PER_DAY, m')
        ∧ mon ≤ m' ∧ m' < L.length
        ∧ 0 ≤ t - ((L.take m').sum - (L.take mon).sum) * SECS_PER_DAY
        ∧ t - ((L.take m').sum - (L.take mon).sum) * SECS_PER_DAY
            < L.getD m' 0 * SECS_PER_DAY) ?_ ?_ ?_ t0 mon0
  · intro t mon hm hg ih hpos ht hub
    have hgetel : L.get ⟨mon, hm⟩ = L[mon] := List.get_eq_getElem L _
    have hdrop : (L.drop mon).sum = L.get ⟨mon, hm⟩ + (L.drop (mon + 1)).sum := by
      rw [List.drop_eq_getElem_cons hm, List.sum_cons, hgetel]
    have htake : (L.take (mon + 1)).sum = (L.take mon).sum + L.get ⟨mon, hm⟩ := by
      rw [List.sum_take_succ L mon hm, hgetel]
    have ht' : 0 ≤ t - L.get ⟨mon, hm⟩ * SECS_PER_DAY := by omega
    have hub' : t - L.get ⟨mon, hm⟩ * SECS_PER_DAY < ((L.drop (mon + 1)).sum) * SECS_PER_DAY := by
      rw [hdrop] at hub
      simp only [SECS_PER_DAY] at hub ⊢
      omega
    obtain ⟨m', heq, hle, hlen, hnn, hltub⟩ := ih hpos ht' hub'
    refine ⟨m', ?_, by omega, hlen, ?_, ?_⟩
    · unfold monthLoop
      rw [dif_pos hm, if_pos hg, heq]
      simp only [Prod.mk.injEq]
      refine ⟨?_, trivial⟩
      rw [htake]
      ring
    · rw [htake] at hnn
      simp only [SECS_PER_DAY] at hnn ⊢
      omega
    · rw [htake] at hltub
      simp only [SECS_PER_DAY] at hltub ⊢
      omega
  · intro t mon hm hg hpos ht hub
    refine ⟨mon, ?_, le_refl mon, hm, by simpa using ht, ?_⟩
    · unfold monthLoop
      rw [dif_pos hm, if_neg hg]
      simp
    · rw [getD_of_lt _ _ hm]
      simp only [sub_self, zero_mul, sub_zero]
      omega
  · intro t mon hm hpos ht hub
    have hnil : L.drop mon = [] := List.drop_eq_nil_of_le (by omega)
    rw [hnil] at hub
    simp at hub
    omega

lemma dayLoop_spec : ∀ t c : Int, 0 ≤ t →
    dayLoop t c = (t % SECS_PER_DAY, c + t / SECS_PER_DAY) := by
  intro t c
  induction t, c using dayLoop.induct with
  | case1 t c h ih =>
      intro ht
      have ht' : 0 ≤ t - SECS_PER_DAY := by
        simp only [SECS_PER_DAY] at h ⊢
        omega
      unfold dayLoop
      rw [dif_pos h, ih ht']
      simp only [SECS_PER_DAY, Prod.mk.injEq]
      constructor <;> omega
  | case2 t c h =>
      intro ht
      unfold dayLoop
      rw [dif_neg h]
      simp only [SECS_PER_DAY, Prod.mk.injEq] at h ⊢
      constructor <;> omega

lemma hourLoop_spec : ∀ t c : Int, 0 ≤ t →
    hourLoop t c = (t % SECS_PER_HOUR, c + t / SECS_PER_HOUR) := by
  intro t c
  induction t, c using hourLoop.induct with
  | case1 t c h ih =>
      intro ht
      have ht' : 0 ≤ t - SECS_PER_HOUR := by
        simp only [SECS_PER_HOUR] at h ⊢
        omega
      unfold hourLoop
      rw [dif_pos h, ih ht']
      simp only [SECS_PER_HOUR, Prod.mk.injEq]
      constructor <;> omega
  | case2 t c h =>
      intro ht
      unfold hourLoop
      rw [dif_neg h]
      simp only [SECS_PER_HOUR, Prod.mk.injEq] at h ⊢
      constructor <;> omega

lemma minLoop_spec : ∀ t c : Int, 0 ≤ t →
    minLoop t c = (t % SECS_PER_MIN, c + t / SECS_PER_MIN) := by
  intro t c
  induction t, c using minLoop.induct with
  | case1 t c h ih =>
      intro ht
      have ht' : 0 ≤ t - SECS_PER_MIN := by
        simp only [SECS_PER_MIN] at h ⊢
        omega
      unfold minLoop
      rw [dif_pos h, ih ht']
      simp only [SECS_PER_MIN, Prod.mk.injEq]
      constructor <;> omega
  | case2 t c h =>
      intro ht
      unfold minLoop
      rw [dif_neg h]
      simp only [SECS_PER_MIN, Prod.mk.injEq] at h ⊢
      constructor <;> omega

lemma yearLoopF_exit (t y : Int) : (yearLoopF t y).1 < yearSecs (yearLoopF t y).2 := by
  induction t, y using yearLoopF.induct with
  | case1 t y h ih =>
      unfold yearLoopF
      rw [dif_pos h]
      exact ih
  | case2 t y h =>
      unfold yearLoopF
      rw [dif_neg h]
      exact not_le.mp h

lemma yearLoopB_exit (t y : Int) : 0 ≤ (yearLoopB t y).1 := by
  induction t, y using yearLoopB.induct with
  | case1 t y h ih =>
      unfold yearLoopB
      rw [dif_pos h]
      exact ih
  | case2 t y h =>
      unfold yearLoopB
      rw [dif_neg h]
      exact not_lt.mp h

lemma monthLoop_exit (L : List Int) (t0 : Int) (mon0 : Nat) :
    L.length ≤ (monthLoop L t0 mon0).2 ∨
    (monthLoop L t0 mon0).1 < L.getD (monthLoop L t0 mon0).2 0 * SECS_PER_DAY := by
  refine monthLoop.induct L
    (fun t mon => L.length ≤ (monthLoop L t mon).2 ∨
      (monthLoop L t mon).1 < L.getD (monthLoop L t mon).2 0 * SECS_PER_DAY)
    ?_ ?_ ?_ t0 mon0
  · intro t mon hm hg ih
    have hstep : monthLoop L t mon
        = monthLoop L (t - L.get ⟨mon, hm⟩ * SECS_PER_DAY) (mon + 1) := by
      conv_lhs => unfold monthLoop
      rw [dif_pos hm, if_pos hg]
    rw [hstep]
    exact ih
  · intro t mon hm hg
    have hstop : monthLoop L t mon = (t, mon) := by
      unfold monthLoop
      rw [dif_pos hm, if_neg hg]
    rw [hstop]
    right
    show t < L.getD mon 0 * SECS_PER_DAY
    rw [getD_of_lt _ _ hm]
    exact not_le.mp hg
  · intro t mon hm
    have hstop : monthLoop L t mon = (t, mon) := by
      unfold monthLoop
      rw [dif_neg hm]
    rw [hstop]
    left
    show L.length ≤ mon
    omega

lemma dayLoop_exit (t c : Int) : (dayLoop t c).1 < SECS_PER_DAY := by
  induction t, c using dayLoop.induct with
  | case1 t c h ih =>
      unfold dayLoop
      rw [dif_pos h]
      exact ih
  | case2 t c h =>
      unfold dayLoop
      rw [dif_neg h]
      exact not_le.mp h

lemma hourLoop_exit (t c : Int) : (hourLoop t c).1 < SECS_PER_HOUR := by
  induction t, c using hourLoop.induct with
  | case1 t c h ih =>
      unfold hourLoop
      rw [dif_pos h]
      exact ih
  | case2 t c h =>
      unfold hourLoop
      rw [dif_neg h]
      exact not_le.mp h

lemma minLoop_exit (t c : Int) : (minLoop t c).1 < SECS_PER_MIN := by
  induction t, c using minLoop.induct with
  | case1 t c h ih =>
      unfold minLoop
      rw [dif_pos h]
      exact ih
  | case2 t c h =>
      unfold minLoop
      rw [dif_neg h]
      exact not_le.mp h

lemma gmtime_eq (E : Int) :
    ∃ (y2 t3 : Int) (mon : Nat),
      0 ≤ E - yearSpanSecs y2
      ∧ E - yearSpanSecs y2 < yearSecs y2
      ∧ t3 = (E - yearSpanSecs y2) - ((dpmFor y2).take mon).sum * SECS_PER_DAY
      ∧ mon < 12
      ∧ 0 ≤ t3
      ∧ t3 < (dpmFor y2).getD mon 0 * SECS_PER_DAY
      ∧ gmtime E = ⟨t3 % SECS_PER_DAY % SECS_PER_HOUR % SECS_PER_MIN,
                    t3 % SECS_PER_DAY % SECS_PER_HOUR / SECS_PER_MIN,
                    t3 % SECS_PER_DAY / SECS_PER_HOUR,
                    1 + t3 / SECS_PER_DAY,
                    Int.ofNat mon, y2,
                    Int.tmod (Int.tdiv E SECS_PER_DAY + 4) 7,
                    Int.tdiv (E - yearSpanSecs y2) SECS_PER_DAY,
                    -1⟩ := by
  obtain ⟨t2, y2, hB, ht2, ht2nn, ht2lt⟩ := yearPhase E
  have hpos := dpmFor_pos y2
  have hlen := dpmFor_length y2
  have hub0 : t2 < ((dpmFor y2).drop 0).sum * SECS_PER_DAY := by
    rw [List.drop_zero, dpmFor_sum y2]
    exact ht2lt
  obtain ⟨mon, hM, hle0, hmlt, hnn3, hub3⟩ := monthLoop_spec (dpmFor y2) t2 0 hpos ht2nn hub0
  rw [List.take_zero, List.sum_nil, sub_zero] at hM hnn3 hub3
  refine ⟨y2, t2 - ((dpmFor y2).take mon).sum * SECS_PER_DAY, mon,
    by omega, by omega, by rw [ht2], by omega, hnn3, hub3, ?_⟩
  have hr1 : 0 ≤ t2 - ((dpmFor y2).take mon).sum * SECS_PER_DAY := hnn3
  have hr2 : 0 ≤ (t2 - ((dpmFor y2).take mon).sum * SECS_PER_DAY) % SECS_PER_DAY :=
    Int.emod_nonneg _ (by norm_num [SECS_PER_DAY])
  have hr3 : 0 ≤ (t2 - ((dpmFor y2).take mon).sum * SECS_PER_DAY) % SECS_PER_DAY % SECS_PER_HOUR :=
    Int.emod_nonneg _ (by norm_num [SECS_PER_HOUR])
  simp only [gmtime, gmtimeAux]
  rw [hB]
  dsimp only
  rw [show (if istmleap y2 then dpm0.set 1 29 else dpm0) = dpmFor y2 from rfl]
  rw [hM]
  dsimp only
  rw [dayLoop_spec _ _ hr1]
  dsimp only
  rw [hourLoop_spec _ _ hr2]
  dsimp only
  rw [minLoop_spec _ _ hr3]
  dsimp only
  rw [← ht2]
  simp only [zero_add]

lemma gmtime_wday (E : Int) :
    (gmtime E).tm_wday = Int.tmod (Int.tdiv E SECS_PER_DAY + 4) 7 := rfl

lemma gmtime_isdst (E : Int) : (gmtime E).tm_isdst = -1 := rfl

lemma gmtime_recompose (E : Int) : recompose (gmtime E) = E := by
  obtain ⟨y2, t3, mon, h1, h2, h3, h4, h5, h6, heq⟩ := gmtime_eq E
  rw [heq]
  unfold recompose
  dsimp only
  have hmn : (Int.ofNat mon).toNat = mon := rfl
  rw [hmn]
  rw [Int.tdiv_eq_ediv h1 (by norm_num [SECS_PER_DAY])] at *
  simp only [SECS_PER_DAY, SECS_PER_HOUR, SECS_PER_MIN] at *
  omega

lemma gmtime_valid (E : Int) : validTm (gmtime E) := by
  obtain ⟨y2, t3, mon, h1, h2, h3, h4, h5, h6, heq⟩ := gmtime_eq E
  rw [heq]
  unfold validTm
  dsimp only
  simp only [Int.toNat_ofNat, Int.ofNat_eq_coe]
  simp only [SECS_PER_DAY, SECS_PER_HOUR, SECS_PER_MIN] at h5 h6 ⊢
  refine ⟨by omega, by omega, by omega, by omega, by omega, by omega, ?_, ?_, by omega, by omega⟩
  · omega
  · omega

lemma gmtime_yday_eq (E : Int) :
    (gmtime E).tm_yday
      = ((dpmFor (gmtime E).tm_year).take (gmtime E).tm_mon.toNat).sum
        + ((gmtime E).tm_mday - 1) := by
  obtain ⟨y2, t3, mon, h1, h2, h3, h4, h5, h6, heq⟩ := gmtime_eq E
  rw [heq]
  dsimp only
  have hmn : (Int.ofNat mon).toNat = mon := rfl
  rw [hmn]
  rw [Int.tdiv_eq_ediv h1 (by norm_num [SECS_PER_DAY])]
  simp only [SECS_PER_DAY] at *
  omega

lemma gmtime_yday_range (E : Int) :
    0 ≤ (gmtime E).tm_yday ∧ (gmtime E).tm_yday ≤ 365 := by
  obtain ⟨y2, t3, mon, h1, h2, h3, h4, h5, h6, heq⟩ := gmtime_eq E
  rw [heq]
  dsimp only
  rw [Int.tdiv_eq_ediv h1 (by norm_num [SECS_PER_DAY])]
  have hb := yearSecs_bounds y2
  simp only [SECS_PER_DAY] at *
  constructor <;> omega

lemma validTm_rest_bounds (a : Tm) (ha : validTm a) :
    0 ≤ recompose a - yearSpanSecs a.tm_year ∧
    recompose a - yearSpanSecs a.tm_year < yearSecs a.tm_year := by
  obtain ⟨hs0, hs1, hm0, hm1, hh0, hh1, hmo0, hmo1, hd1, hdle⟩ := ha
  unfold recompose
  have hk : a.tm_mon.toNat < 12 := by omega
  have hmono := dpmFor_take_mono a.tm_year a.tm_mon.toNat 12 hk (le_refl 12)
  rw [dpmFor_take_full] at hmono
  have hsum := dpmFor_sum a.tm_year
  have htn := dpmFor_take_nonneg a.tm_year a.tm_mon.toNat
  simp only [SECS_PER_DAY, SECS_PER_HOUR, SECS_PER_MIN] at *
  constructor <;> omega

lemma recompose_lt_of_lexLt (a b : Tm) (ha : validTm a) (hb : validTm b)
    (hab : lexLt6 a b) : recompose a < recompose b := by
  have hra := validTm_rest_bounds a ha
  have hrb := validTm_rest_bounds b hb
  obtain ⟨as0, as1, am0, am1, ah0, ah1, amo0, amo1, ad1, adle⟩ := ha
  obtain ⟨bs0, bs1, bm0, bm1, bh0, bh1, bmo0, bmo1, bd1, bdle⟩ := hb
  rcases hab with hy | ⟨hy, hrest⟩
  · have hstep := yearSpanSecs_step_le hy
    omega
  · rcases hrest with hmo | ⟨hmoeq, hrest⟩
    · have hka : a.tm_mon.toNat < b.tm_mon.toNat := by omega
      have hkb : b.tm_mon.toNat ≤ 12 := by omega
      have hmono := dpmFor_take_mono a.tm_year a.tm_mon.toNat b.tm_mon.toNat hka hkb
      have htnb := dpmFor_take_nonneg a.tm_year a.tm_mon.toNat
      unfold recompose
      rw [hy] at hmono adle htnb ⊢
      simp only [SECS_PER_DAY, SECS_PER_HOUR, SECS_PER_MIN] at *
      omega
    · rcases hrest with hd | ⟨hdeq, hrest⟩
      · unfold recompose
        rw [hy, hmoeq]
        simp only [SECS_PER_DAY, SECS_PER_HOUR, SECS_PER_MIN] at *
        omega
      · rcases hrest with hh | ⟨hheq, hrest⟩
        · unfold recompose
          rw [hy, hmoeq, hdeq]
          simp only [SECS_PER_DAY, SECS_PER_HOUR, SECS_PER_MIN] at *
          omega
        · rcases hrest with hm | ⟨hmeq, hs⟩
          · unfold recompose
            rw [hy, hmoeq, hdeq, hheq]
            simp only [SECS_PER_DAY, SECS_PER_HOUR, SECS_PER_MIN] at *
            omega
          · unfold recompose
            rw [hy, hmoeq, hdeq, hheq, hmeq]
            simp only [SECS_PER_DAY, SECS_PER_HOUR, SECS_PER_MIN] at *
            omega

lemma lexLt6_trichotomy (a b : Tm) :
    lexLt6 a b ∨ lexLt6 b a ∨
    (a.tm_year = b.tm_year ∧ a.tm_mon = b.tm_mon ∧ a.tm_mday = b.tm_mday
      ∧ a.tm_hour = b.tm_hour ∧ a.tm_min = b.tm_min ∧ a.tm_sec = b.tm_sec) := by
  unfold lexLt6
  omega

lemma lexLe6_or_lt (a b : Tm) : lexLe6 a b ∨ lexLt6 b a := by
  unfold lexLe6 lexLt6
  omega

lemma gmtime_unique (E : Int) (r : Tm) (hr : validTm r) (hrec : recompose r = E) :
    (gmtime E).tm_year = r.tm_year ∧ (gmtime E).tm_mon = r.tm_mon
    ∧ (gmtime E).tm_mday = r.tm_mday ∧ (gmtime E).tm_hour = r.tm_hour
    ∧ (gmtime E).tm_min = r.tm_min ∧ (gmtime E).tm_sec = r.tm_sec := by
  have hg := gmtime_valid E
  have hgr := gmtime_recompose E
  rcases lexLt6_trichotomy (gmtime E) r with hlt | hlt | heq
  · have := recompose_lt_of_lexLt _ _ hg hr hlt
    omega
  · have := recompose_lt_of_lexLt _ _ hr hg hlt
    omega
  · exact heq

/-- C1: for every epoch-seconds value E, recomposing a seconds count from the
breakdown returned by gmtime — whole years between 1970 and the resolved year
(signed, 366-day lengths for leap years), whole months before tm_mon, whole
days before tm_mday, then hours, minutes and seconds — yields exactly E. -/
theorem claim_C1_roundtrip (E : Int) : recompose (gmtime E) = E :=
  gmtime_recompose E

/-- C2: for every input, the breakdown satisfies all field-range invariants:
seconds 0–59, minutes 0–59, hours 0–23, day of month 1–31 and at most the
resolved month's length, month 0–11, day of year 0–365. -/
theorem claim_C2_ranges (E : Int) :
    0 ≤ (gmtime E).tm_sec ∧ (gmtime E).tm_sec ≤ 59
  ∧ 0 ≤ (gmtime E).tm_min ∧ (gmtime E).tm_min ≤ 59
  ∧ 0 ≤ (gmtime E).tm_hour ∧ (gmtime E).tm_hour ≤ 23
  ∧ 1 ≤ (gmtime E).tm_mday ∧ (gmtime E).tm_mday ≤ 31
  ∧ (gmtime E).tm_mday ≤ (dpmFor (gmtime E).tm_year).getD (gmtime E).tm_mon.toNat 0
  ∧ 0 ≤ (gmtime E).tm_mon ∧ (gmtime E).tm_mon ≤ 11
  ∧ 0 ≤ (gmtime E).tm_yday ∧ (gmtime E).tm_yday ≤ 365 := by
  have hv := gmtime_valid E
  have hy := gmtime_yday_range E
  obtain ⟨h1, h2, h3, h4, h5, h6, h7, h8, h9, h10⟩ := hv
  have hk : (gmtime E).tm_mon.toNat < 12 := by omega
  have hgd := dpmFor_getD_le (gmtime E).tm_year _ hk
  exact ⟨h1, by omega, h3, by omega, h5, by omega, h9, by omega, h10, h7, by omega,
    hy.1, hy.2⟩

/-- C3 counterexample: the claim says gmtime(0) has dayOfWeek = 0; the code
computes tm_wday = (0 / 86400 + 4) % 7 = 4, so the weekday field is not 0. -/
theorem claim_C3_counterexample : ¬ ((gmtime 0).tm_wday = 0) := by
  rw [gmtime_wday 0]
  decide

/-- C3 amended: gmtime(0) is the exact epoch breakdown (yearOffset 70,
month 0, day 1, 00:00:00, dayOfYear 0) with dayOfWeek = 4 — the value the
+4 offset actually produces, denoting Thursday in the C convention where
weekday 0 is Sunday (not 0 as the claim's 0-is-Thursday convention states). -/
theorem claim_C3_amended :
    (gmtime 0).tm_year = 70 ∧ (gmtime 0).tm_mon = 0 ∧ (gmtime 0).tm_mday = 1
  ∧ (gmtime 0).tm_hour = 0 ∧ (gmtime 0).tm_min = 0 ∧ (gmtime 0).tm_sec = 0
  ∧ (gmtime 0).tm_yday = 0 ∧ (gmtime 0).tm_wday = 4 := by
  have hu := gmtime_unique 0 ⟨0, 0, 0, 1, 0, 70, 4, 0, -1⟩ (by unfold validTm; decide) (by decide)
  obtain ⟨hy, hmo, hd, hh, hm, hs⟩ := hu
  refine ⟨hy, hmo, hd, hh, hm, hs, ?_, ?_⟩
  · have hyd := gmtime_yday_eq 0
    rw [hy, hmo, hd] at hyd
    rw [hyd]
    decide
  · rw [gmtime_wday 0]
    decide

/-- C4: for every input E, the weekday field equals (E / 86400 + 4) mod 7
computed with C's truncating (round-toward-zero) signed division and its
matching remainder, exactly as the source line writes it. -/
theorem claim_C4_wday (E : Int) :
    (gmtime E).tm_wday = Int.tmod (Int.tdiv E 86400 + 4) 7 := by
  have h := gmtime_wday E
  simpa [SECS_PER_DAY] using h

/-- C5 counterexample: the claim says gmtime(-1) has dayOfWeek = 6; the code
computes tm_wday = ((-1) / 86400 + 4) % 7 = 4 (truncating division maps -1 to
day 0), so the weekday field is not 6. -/
theorem claim_C5_counterexample : ¬ ((gmtime (-1)).tm_wday = 6) := by
  rw [gmtime_wday (-1)]
  decide

/-- C5 amended: gmtime(-1) resolves to 1969-12-31T23:59:59 (yearOffset 69,
month 11, day 31) — the backward year walk is correct — but the weekday field
is 4 (the truncation bias: (-1)/86400 rounds to 0, giving the epoch's
Thursday value) rather than a Wednesday index. -/
theorem claim_C5_amended :
    (gmtime (-1)).tm_year = 69 ∧ (gmtime (-1)).tm_mon = 11 ∧ (gmtime (-1)).tm_mday = 31
  ∧ (gmtime (-1)).tm_hour = 23 ∧ (gmtime (-1)).tm_min = 59 ∧ (gmtime (-1)).tm_sec = 59
  ∧ (gmtime (-1)).tm_wday = 4 := by
  have hu := gmtime_unique (-1) ⟨59, 59, 23, 31, 11, 69, 4, 364, -1⟩ (by unfold validTm; decide) (by decide)
  obtain ⟨hy, hmo, hd, hh, hm, hs⟩ := hu
  refine ⟨hy, hmo, hd, hh, hm, hs, ?_⟩
  rw [gmtime_wday (-1)]
  decide

/-- C6: the seconds count of 2000-02-29T00:00:00 (951782400) resolves to
February 29 of year offset 100 (2000 is a leap year), while the count that
would naively be 1900-02-29 (-2203891200) resolves to March 1 of year
offset 0 (1900 is not a leap year). -/
theorem claim_C6_leap :
    (gmtime 951782400).tm_year = 100 ∧ (gmtime 951782400).tm_mon = 1
  ∧ (gmtime 951782400).tm_mday = 29
  ∧ (gmtime (-2203891200)).tm_year = 0 ∧ (gmtime (-2203891200)).tm_mon = 2
  ∧ (gmtime (-2203891200)).tm_mday = 1 := by
  have hu1 := gmtime_unique 951782400 ⟨0, 0, 0, 29, 1, 100, 2, 59, -1⟩
    (by unfold validTm; decide) (by decide)
  have hu2 := gmtime_unique (-2203891200) ⟨0, 0, 0, 1, 2, 0, -3, 59, -1⟩
    (by unfold validTm; decide) (by decide)
  exact ⟨hu1.1, hu1.2.1, hu1.2.2.1, hu2.1, hu2.2.1, hu2.2.2.1⟩

/-- C7: for E1 < E2 the breakdown of E2 is lexicographically at least that of
E1 in the field order (year, month, day of month, hour, minute, second). -/
theorem claim_C7_monotone (E1 E2 : Int) (h : E1 < E2) :
    lexLe6 (gmtime E1) (gmtime E2) := by
  rcases lexLe6_or_lt (gmtime E1) (gmtime E2) with hle | hlt
  · exact hle
  · exfalso
    have hc := recompose_lt_of_lexLt _ _ (gmtime_valid E2) (gmtime_valid E1) hlt
    rw [gmtime_recompose, gmtime_recompose] at hc
    omega

/-- C7 witness: the monotonicity theorem applied at the concrete pair 0 < 1. -/
theorem claim_C7_witness : (0 : Int) < 1 ∧ lexLe6 (gmtime 0) (gmtime 1) :=
  ⟨by norm_num, claim_C7_monotone 0 1 (by norm_num)⟩

/-- C8: the function body's only return statement is return &tm2 — there is no
null-returning path, so a populated breakdown is produced for every input and
the documented null/absent out-of-range result is never returned. -/
theorem claim_C8_never_null (t : Int) : gmtimeC t = some (gmtime t) := rfl

/-- C9: the static month-length table is restored at every call boundary: on a
call entered with the table in its initial state {31,28,31,30,31,30,31,31,30,
31,30,31}, only February's entry is written (29 when the resolved year is a
leap year, then unconditionally back to 28), so the table at return equals the
initial table. -/
theorem claim_C9_table (t : Int) : (gmtimeAux dpm0 t).2 = dpm0 := by
  unfold gmtimeAux
  dsimp only
  split
  · decide
  · decide

/-- C10: every loop of gmtime terminates — the value each loop returns
falsifies that loop's guard, so the forward and backward year walks, the month
walk and the day, hour and minute walks all reach their exits (their Lean
translations are total functions by the decreasing measures used to define
them). -/
theorem claim_C10_loops_terminate (t y c : Int) :
    (yearLoopF t y).1 < yearSecs (yearLoopF t y).2
  ∧ 0 ≤ (yearLoopB t y).1
  ∧ (∀ (L : List Int) (mon : Nat),
      L.length ≤ (monthLoop L t mon).2 ∨
      (monthLoop L t mon).1 < L.getD (monthLoop L t mon).2 0 * SECS_PER_DAY)
  ∧ (dayLoop t c).1 < SECS_PER_DAY
  ∧ (hourLoop t c).1 < SECS_PER_HOUR
  ∧ (minLoop t c).1 < SECS_PER_MIN :=
  ⟨yearLoopF_exit t y, yearLoopB_exit t y, fun L mon => monthLoop_exit L t mon,
   dayLoop_exit t c, hourLoop_exit t c, minLoop_exit t c⟩

end Gmtime
